import Mathlib

/-!
Verification of the core of `mcp_server.py` (oqee-mcp): channel catalog
lookups, Levenshtein-based channel resolution, search-result
normalization, time-spec parsing, and the now/next guide aggregator.

Conventions of the shallow embedding:
* Python dicts decoded from JSON are modelled as association lists in
  insertion order (`List (String × α)`); `dict.get` is `dictGet`,
  `dict[k] = v` assignment is `dictInsert` (replace-in-place or append).
* A JSON field that may be missing (accessed with `.get`) is an `Option`.
* Python `str(x)` applied to a possibly-`None` string is `strOfOpt`
  (Python renders `None` as the string "None").
* Epoch instants from the payloads are integers, modelled as `Int`
  (sub-second precision of `datetime.timestamp()` is abstracted away;
  every payload instant is a whole second).
* `datetime.fromtimestamp(..).strftime(..)` depends on the process's
  local timezone, so the formatting functions are passed as parameters
  (`fmt : Int → String`).
* Operations that can raise for ill-typed payloads (the subscripts
  `x['live']['end']` in the guide filter) run in `Except String`;
  everything else in these components only uses `.get` with defaults and
  is total, exactly as in the source.
* `results.sort(key=..)` is Python's stable sort by the key preorder;
  it is embedded as the stable `List.mergeSort` with the same preorder.
-/

namespace Oqee

/-- One value of the `channels` dict of the service plan; only the
`name` and `id` keys are ever read by the code. -/
structure ChannelData where
  name : Option String
  id : Option String
deriving Repr, DecidableEq

/-- One element of the `channel_list` array of the service plan. -/
structure LcnEntry where
  channel_id : Option String
  number : Option Int
deriving Repr, DecidableEq

/-- The decoded `result` object of the service-plan document. -/
structure ServicePlan where
  channels : List (String × ChannelData)
  channel_list : List LcnEntry
deriving Repr, DecidableEq

/-- Python `str` applied to an optional string: `str(None) == "None"`. -/
def strOfOpt : Option String → String
  | some s => s
  | none => "None"

/-- `d.get(k)` on a dict modelled as an association list with unique
keys: the first binding of `k`, if any. -/
def dictGet (l : List (String × α)) (k : String) : Option α :=
  (l.find? (fun p => p.1 = k)).map (·.2)

/-- `d[k] = v` on a dict modelled as an association list: replace the
existing binding in place, else append a new one. -/
def dictInsert (l : List (String × α)) (k : String) (v : α) : List (String × α) :=
  if l.any (fun p => p.1 = k) then
    l.map (fun p => if p.1 = k then (k, v) else p)
  else l ++ [(k, v)]

/-- The `for channel_info in channel_list: … break` loop of
`_get_channel_details` (lines 56–59): the number of the first entry
whose (str-ed) channel id matches, else `None`. -/
def get_channel_details_lcn : List LcnEntry → String → Option Int
  | [], _ => none
  | e :: rest, cid =>
      if strOfOpt e.channel_id = cid then e.number
      else get_channel_details_lcn rest cid

/-- `_get_channel_details` (lines 45–60).  A failed/empty service plan
(`if not service_plan`) is `none` and yields `(None, None)`. -/
def get_channel_details (plan : Option ServicePlan) (cid : Option String) :
    Option String × Option Int :=
  match plan with
  | none => (none, none)
  | some sp =>
      let key := strOfOpt cid
      ((dictGet sp.channels key).bind (·.name),
       get_channel_details_lcn sp.channel_list key)

/-! ## levenshtein_distance (lines 62–79) -/

/-- The inner `for j, c2 in enumerate(s2)` loop of
`levenshtein_distance`: walks `previous_row` and `s2` in lockstep
(`p0 = previous_row[j]`, `p1 = previous_row[j+1]`), with `left` the last
value appended to `current_row`, and returns the values appended. -/
def levRow (c1 : Char) : Nat → List Nat → List Char → List Nat
  | left, p0 :: p1 :: prest, c2 :: cs =>
      let v := min (p1 + 1) (min (left + 1) (p0 + (if c1 = c2 then 0 else 1)))
      v :: levRow c1 v (p1 :: prest) cs
  | _, _, _ => []

/-- The outer `for i, c1 in enumerate(s1)` loop of
`levenshtein_distance`: rebuilds `previous_row` once per character of
`s1` (each new row starts with `[i + 1]`). -/
def levLoop (s2 : List Char) : Nat → List Nat → List Char → List Nat
  | _, prev, [] => prev
  | i, prev, c1 :: rest =>
      levLoop s2 (i + 1) ((i + 1) :: levRow c1 (i + 1) prev s2) rest

/-- `previous_row[-1]`: last element of a list (0 for the empty list,
which never occurs: the row always has `len(s2) + 1` elements). -/
def lastD : List Nat → Nat
  | [] => 0
  | [a] => a
  | _ :: b :: rest => lastD (b :: rest)

/-- The body of `levenshtein_distance` after the argument swap
(lines 66–79): the `len(s2) == 0` shortcut, then the two-row DP. -/
def levBody (s1 s2 : List Char) : Nat :=
  if s2.length = 0 then s1.length
  else lastD (levLoop s2 0 (List.range (s2.length + 1)) s1)

/-- `levenshtein_distance` (lines 62–79), including the initial swap
`if len(s1) < len(s2): return levenshtein_distance(s2, s1)`. -/
def levenshtein_distance (s1 s2 : List Char) : Nat :=
  if s1.length < s2.length then levBody s2 s1 else levBody s1 s2

/-- Modelled from the spec: the classic Levenshtein edit distance
(minimum number of unit-cost insertions, deletions and substitutions),
written as the standard textbook recurrence. -/
def lev : List Char → List Char → Nat
  | [], b => b.length
  | a, [] => a.length
  | x :: xs, y :: ys =>
      min (lev xs ys + (if x = y then 0 else 1))
        (min (lev xs (y :: ys) + 1) (lev (x :: xs) ys + 1))

/-- Tail of the DP row for the reversed `s1`-prefix `ra`: entry `j`
(counting from the current position, with `rb` the reversed prefix of
`s2` already consumed) is `lev ra` of the reversed next prefixes. -/
def rowAux (ra : List Char) : List Char → List Char → List Nat
  | _, [] => []
  | rb, c2 :: cs => lev ra (c2 :: rb) :: rowAux ra (c2 :: rb) cs

/-- The full DP row for reversed `s1`-prefix `ra` and remaining `s2`
suffix `cs` (with `rb` the reversed consumed prefix of `s2`). -/
def rowOf (ra rb cs : List Char) : List Nat := lev ra rb :: rowAux ra rb cs

/-! ## play_channel (lines 81–113) -/

/-- `s.lower()` as a character list (ASCII lowering; the payload channel
names are ASCII). -/
def toLowerData (s : String) : List Char := s.data.map Char.toLower

/-- The distance `play_channel` computes for one candidate (line 103):
edit distance of the lowered query against the lowered `name` key
(default `""`). -/
def dOf (q : String) (cd : ChannelData) : Nat :=
  levenshtein_distance (toLowerData q) (toLowerData (cd.name.getD ""))

/-- The playback URL built from the best match (line 110). -/
def playUrl (cd : ChannelData) : String :=
  "https://oqee.tv/home/channels/" ++ strOfOpt cd.id ++ "/play"

/-- The `for channel_id, channel_data in channels.items()` loop of
`play_channel` (lines 101–106): `minD = none` models the initial
`float('inf')`, and only a strictly smaller distance replaces the
current best. -/
def play_channel_loop (q : String) :
    List (String × ChannelData) → Option ChannelData → Option Nat → Option ChannelData
  | [], best, _ => best
  | (_, cd) :: rest, best, minD =>
      let d := dOf q cd
      let better : Bool := match minD with
        | none => true
        | some m => d < m
      if better then play_channel_loop q rest (some cd) (some d)
      else play_channel_loop q rest best minD

/-- `play_channel` (lines 81–113): `none` for a missing/empty service
plan or empty channel dict, else the URL built from the best match's
`id` key. -/
def play_channel (q : String) (plan : Option ServicePlan) : Option String :=
  match plan with
  | none => none
  | some sp =>
      if sp.channels.isEmpty then none
      else
        match play_channel_loop q sp.channels none none with
        | some cd => some (playUrl cd)
        | none => none

/-! ## search_content normalization (lines 126–177) -/

/-- The `collection` object of a raw search item (`ctype` is its `type`
key). -/
structure CollectionData where
  title : Option String
  ctype : Option String
  id : Option String
deriving Repr, DecidableEq

/-- The `replay_collection` object of a raw search item. -/
structure ReplayCollectionData where
  title : Option String
  id : Option String
deriving Repr, DecidableEq

/-- One element of a content's `diffusions` array (`stop` is the JSON
`end` key). -/
structure Diffusion where
  channel_id : Option String
  start : Option Int
  stop : Option Int
deriving Repr, DecidableEq

/-- The `content` object of a raw search item. -/
structure ContentData where
  title : Option String
  description : Option String
  original_title : Option String
  id : Option String
  display_as : Option String
  diffusions : List Diffusion
deriving Repr, DecidableEq

/-- Which of the three mutually exclusive keys a raw search item
carries (the source probes them with `in`, in this order); `other` is
an item carrying none of them. -/
inductive RawPayload
  | collection (c : CollectionData)
  | replay_collection (r : ReplayCollectionData)
  | content (c : ContentData)
  | other
deriving Repr, DecidableEq

/-- A raw search item: its top-level `type` key plus its payload. -/
structure RawItem where
  itype : Option String
  payload : RawPayload
deriving Repr, DecidableEq

/-- The normalized output record of `search_content`: a flat dict whose
keys are optional (`none` = key absent).  `rtype` is the `type` key. -/
structure SearchResult where
  rtype : Option String
  title : Option String
  description : Option String
  original_title : Option String
  id : Option String
  url : Option String
  channel_name : Option String
  channel_number : Option Int
  broadcast_time : Option String
  broadcast_end_time : Option String
  duration : Option String
deriving Repr, DecidableEq

/-- `result_item = {"type": item.get("type")}` (line 128). -/
def emptyResult (t : Option String) : SearchResult :=
  ⟨t, none, none, none, none, none, none, none, none, none, none⟩

/-- `fmt(ts) if ts else None`: Python truthiness of an optional integer
(`None` and `0` are both falsy), then timestamp formatting. -/
def fmtTruthy (fmt : Int → String) : Option Int → Option String
  | some n => if n = 0 then none else some (fmt n)
  | none => none

/-- Python truthiness of an optional string (`None` and `""` falsy). -/
def truthyStr : Option String → Bool
  | some s => s ≠ ""
  | none => false

/-- Python truthiness of an optional integer (`None` and `0` falsy). -/
def truthyInt : Option Int → Bool
  | some n => n ≠ 0
  | none => false

/-- The per-item normalization of `search_content` (lines 128–177).
`fmtMD` models `datetime.fromtimestamp(..).strftime("%m/%d %H:%M")`. -/
def normalize_search_item (fmtMD : Int → String) (plan : Option ServicePlan)
    (item : RawItem) : SearchResult :=
  let base := emptyResult item.itype
  match item.payload with
  | .collection c =>
      { base with
        title := c.title
        rtype := c.ctype
        id := c.id
        url := some ("https://oqee.tv/search-collection/" ++ strOfOpt c.id ++ "/all") }
  | .replay_collection r =>
      { base with
        title := r.title
        id := r.id
        url := some ("https://oqee.tv/search-replay_collection/" ++ strOfOpt r.id ++ "/all") }
  | .content c =>
      let b1 := { base with
                  title := c.title
                  description := c.description
                  original_title := c.original_title
                  id := c.id }
      if c.display_as = some "vod" then
        { b1 with url := some ("https://oqee.tv/vod/contents/" ++ strOfOpt c.id) }
      else if c.display_as = some "diffusion" then
        match c.diffusions with
        | [] => b1
        | d :: _ =>
            let det := get_channel_details plan d.channel_id
            let b2 := { b1 with
                        channel_name := if truthyStr det.1 then det.1 else none
                        channel_number := if truthyInt det.2 then det.2 else none
                        broadcast_time := fmtTruthy fmtMD d.start }
            match d.stop with
            | some e =>
                if e = 0 then b2
                else
                  { b2 with
                    broadcast_end_time := some (fmtMD e)
                    duration := match d.start with
                      | some s =>
                          if s = 0 then none
                          else some (toString (Int.fdiv (e - s) 60) ++ " minutes")
                      | none => none }
            | none => b2
      else b1
  | .other => base

/-- `search_content`'s result list: one normalized record per raw item,
in order (line 177 appends unconditionally). -/
def search_content (fmtMD : Int → String) (plan : Option ServicePlan)
    (items : List RawItem) : List SearchResult :=
  items.map (normalize_search_item fmtMD plan)

/-! ## _get_epg_by_datetime (lines 185–241) -/

/-- The `live` object of a guide program entry (`stop` is the JSON
`end` key). -/
structure LiveInfo where
  title : Option String
  start : Option Int
  stop : Option Int
deriving Repr, DecidableEq

/-- One element of a channel's program array in a guide bucket.  A
missing `live` key is `none`; `programs[i].get("live", {})` with a
present-but-empty dict never survives the filter (which subscripts
`x['live']['end']`), so an empty `live` dict is identified with an
absent one. -/
structure ProgramEntry where
  live : Option LiveInfo
deriving Repr, DecidableEq

/-- One output row of `_get_epg_by_datetime` (lines 227–236). -/
structure GuideRow where
  lcn : Option Int
  channel : Option String
  current_program : Option String
  current_program_start_time : Option String
  current_program_end_time : Option String
  next_program : Option String
  next_program_start_time : Option String
  next_program_end_time : Option String
deriving Repr, DecidableEq

/-- The list comprehension
`[x for x in programs if x['live']['end'] >= timestamp.timestamp()]`
(line 214): the subscripts raise `KeyError` on an entry without `live`
or without `end`, modelled as `Except.error`. -/
def filterPrograms (t : Int) : List ProgramEntry → Except String (List ProgramEntry)
  | [] => .ok []
  | p :: rest =>
      match p.live with
      | none => .error "KeyError: live"
      | some l =>
          match l.stop with
          | none => .error "KeyError: end"
          | some e =>
              (filterPrograms t rest).map (fun tail =>
                if e ≥ t then p :: tail else tail)

/-- `programs[i].get("live", {})` guarded by the length checks of
lines 215–216, with the subsequent `if current_program_data` truthiness
checks: the element's `live`, if the index exists. -/
def liveAt (filtered : List ProgramEntry) (i : Nat) : Option LiveInfo :=
  (filtered.get? i).bind (·.live)

/-- The per-channel body of the `for channel_id, channel_data in
channels.items()` loop (lines 209–236): `ok none` when the channel has
no bucket entry (the row is appended only inside
`if channel_id in epg_entries`), else the constructed row.  `fmt`
models `datetime.fromtimestamp(..).strftime("%H:%M")`. -/
def buildRow (fmt : Int → String) (t : Int) (lcnMap : List (String × Option Int))
    (epg : List (String × List ProgramEntry)) (cid : String) (cd : ChannelData) :
    Except String (Option GuideRow) :=
  match dictGet epg cid with
  | none => .ok none
  | some programs =>
      (filterPrograms t programs).map (fun filtered =>
        let cur := liveAt filtered 0
        let nxt := liveAt filtered 1
        some {
          lcn := (dictGet lcnMap cid).join
          channel := cd.name
          current_program := cur.bind (·.title)
          current_program_start_time := cur.bind (fun l => fmtTruthy fmt l.start)
          current_program_end_time := cur.bind (fun l => fmtTruthy fmt l.stop)
          next_program := nxt.bind (·.title)
          next_program_start_time := nxt.bind (fun l => fmtTruthy fmt l.start)
          next_program_end_time := nxt.bind (fun l => fmtTruthy fmt l.stop) })

/-- The `lcn_mapping` construction loop (lines 197–199): a dict built
by plain assignment, so a later entry for the same id overwrites an
earlier one. -/
def buildLcnMapping (cl : List LcnEntry) : List (String × Option Int) :=
  cl.foldl (fun d e => dictInsert d (strOfOpt e.channel_id) e.number) []

/-- The whole `for channel_id, channel_data in channels.items()` loop
(lines 209–236), collecting the appended rows in iteration order. -/
def collectRows (fmt : Int → String) (t : Int) (lcnMap : List (String × Option Int))
    (epg : List (String × List ProgramEntry)) :
    List (String × ChannelData) → Except String (List GuideRow)
  | [] => .ok []
  | (cid, cd) :: rest => do
      let r ← buildRow fmt t lcnMap epg cid cd
      let tail ← collectRows fmt t lcnMap epg rest
      .ok (match r with | some row => row :: tail | none => tail)

/-- The sort key preorder of line 239,
`key=lambda x: (x.get("lcn") is None, x.get("lcn"))`: rows with an lcn
come first, ascending; rows without an lcn compare equal among
themselves and above every row with one. -/
def rowKeyLe (a b : GuideRow) : Bool :=
  match a.lcn, b.lcn with
  | none, none => true
  | none, some _ => false
  | some _, none => true
  | some x, some y => x ≤ y

/-- `_get_epg_by_datetime` (lines 185–241) with the network fetch
abstracted: `plan` is the cached service plan (`none` when the fetch
failed and the function prints and returns `None`), `epg` the decoded
`entries` dict of the requested hourly bucket, `t` the query instant
`timestamp.timestamp()`.  Line 239's stable sort is `mergeSort` by the
same key preorder. -/
def get_epg_by_datetime (fmt : Int → String) (t : Int) (plan : Option ServicePlan)
    (epg : List (String × List ProgramEntry)) :
    Except String (Option (List GuideRow)) :=
  match plan with
  | none => .ok none
  | some sp => do
      let lcnMap := buildLcnMapping sp.channel_list
      let rows ← collectRows fmt t lcnMap epg sp.channels
      .ok (some (rows.mergeSort rowKeyLe))

/-! ## get_epg time parsing (lines 243–269) -/

/-- A naive Python `datetime` value (no timezone; the code never
compares datetimes directly, only fields and `timestamp()`). -/
structure PyDateTime where
  year : Nat
  month : Nat
  day : Nat
  hour : Nat
  minute : Nat
  second : Nat
  microsecond : Nat
deriving Repr, DecidableEq

/-- Gregorian leap year, as `datetime` validates it. -/
def isLeap (y : Nat) : Bool := (y % 4 = 0 && y % 100 ≠ 0) || y % 400 = 0

/-- Days in a month, as `datetime.replace` validates the `day` field. -/
def daysInMonth (y m : Nat) : Nat :=
  if m = 2 then (if isLeap y then 29 else 28)
  else if m = 4 ∨ m = 6 ∨ m = 9 ∨ m = 11 then 30
  else 31

/-- Python `str.split(sep)` with a one-character separator: split at
every occurrence, keeping empty pieces (`"".split(c) == [""]`). -/
def splitOnChar (c : Char) : List Char → List (List Char)
  | [] => [[]]
  | x :: rest =>
      if x = c then [] :: splitOnChar c rest
      else
        match splitOnChar c rest with
        | h :: t => (x :: h) :: t
        | [] => [[x]]

/-- Digits-to-number accumulator for `pyInt`. -/
def digitsToNat (l : List Char) : Nat :=
  l.foldl (fun a c => a * 10 + (c.toNat - '0'.toNat)) 0

/-- Python `int(s)` on a string: strip surrounding whitespace, optional
sign, then a nonempty ASCII digit run; anything else raises
`ValueError`, modelled as `none`.  (Unicode digits and `_` separators
are not modelled; the inputs of interest are ASCII.) -/
def pyInt (s : List Char) : Option Int :=
  let l := ((s.dropWhile (·.isWhitespace)).reverse.dropWhile (·.isWhitespace)).reverse
  match l with
  | [] => none
  | c :: rest =>
      let sd : Bool × List Char :=
        if c = '-' then (true, rest)
        else if c = '+' then (false, rest)
        else (false, c :: rest)
      if sd.2 ≠ [] ∧ sd.2.all (·.isDigit) then
        some (if sd.1 then -(digitsToNat sd.2 : Int) else (digitsToNat sd.2 : Int))
      else none

/-- The first `try` of `get_epg` (lines 254–256): split on `:` into
exactly two ints, then `now.replace(hour, minute, second=0,
microsecond=0)`, whose field validation (`0 ≤ hour ≤ 23`,
`0 ≤ minute ≤ 59`) raising `ValueError` is modelled as `none`. -/
def tryHHMM (now : PyDateTime) (s : String) : Option PyDateTime :=
  match splitOnChar ':' s.data with
  | [hs, ms] => do
      let h ← pyInt hs
      let m ← pyInt ms
      if 0 ≤ h ∧ h ≤ 23 ∧ 0 ≤ m ∧ m ≤ 59 then
        some { now with
               hour := h.toNat
               minute := m.toNat
               second := 0
               microsecond := 0 }
      else none
  | _ => none

/-- The second `try` of `get_epg` (lines 258–263): split on a space into
`month_day` and `time_part`, each into exactly two ints, then
`now.replace(month, day, hour, minute, second=0, microsecond=0)` with
`datetime`'s field validation (day checked against the current year's
month length). -/
def tryMDHM (now : PyDateTime) (s : String) : Option PyDateTime :=
  match splitOnChar ' ' s.data with
  | [md, tp] =>
      match splitOnChar '/' md, splitOnChar ':' tp with
      | [mos, ds], [hs, mins] => do
          let mo ← pyInt mos
          let d ← pyInt ds
          let h ← pyInt hs
          let mi ← pyInt mins
          if 1 ≤ mo ∧ mo ≤ 12 ∧ 1 ≤ d ∧ d.toNat ≤ daysInMonth now.year mo.toNat ∧
              0 ≤ h ∧ h ≤ 23 ∧ 0 ≤ mi ∧ mi ≤ 59 then
            some { now with
                   month := mo.toNat
                   day := d.toNat
                   hour := h.toNat
                   minute := mi.toNat
                   second := 0
                   microsecond := 0 }
          else none
      | _, _ => none
  | _ => none

/-- The runtime type of `get_epg`'s `time_input` argument: absent,
integer, string, or anything else. -/
inductive TimeInput
  | nothing
  | int (n : Int)
  | str (s : String)
  | other
deriving Repr, DecidableEq

/-- The two `ValueError` kinds raised by `get_epg` (lines 265, 267). -/
inductive TimeError
  | invalidTimeFormat
  | invalidTimeInput
deriving Repr, DecidableEq

/-- The time-spec parsing of `get_epg` (lines 248–267).  `now` is the
`datetime.now()` snapshot, `fromTs` models
`datetime.fromtimestamp` (local-timezone conversion, abstracted). -/
def get_epg_parse (now : PyDateTime) (fromTs : Int → PyDateTime) :
    TimeInput → Except TimeError PyDateTime
  | .nothing => .ok now
  | .int n => .ok (fromTs n)
  | .str s =>
      match tryHHMM now s with
      | some d => .ok d
      | none =>
          match tryMDHM now s with
          | some d => .ok d
          | none => .error .invalidTimeFormat
  | .other => .error .invalidTimeInput

/-! ## Well-typedness and spec-side helpers -/

/-- A guide program entry is well typed when the subscripts
`x['live']['end']` of line 214 succeed on it. -/
def EntryWT (p : ProgramEntry) : Prop :=
  (p.live.bind (·.stop)).isSome = true

/-- All entries of a program list are well typed. -/
def ProgramsWT (ps : List ProgramEntry) : Prop := ∀ p ∈ ps, EntryWT p

/-- All program lists of a guide bucket are well typed. -/
def EpgWT (epg : List (String × List ProgramEntry)) : Prop :=
  ∀ q ∈ epg, ProgramsWT q.2

/-- Well-typedness of guide payloads is decidable (used to discharge
hypotheses on concrete examples). -/
instance (p : ProgramEntry) : Decidable (EntryWT p) := by
  unfold EntryWT
  infer_instance

instance (ps : List ProgramEntry) : Decidable (ProgramsWT ps) := by
  unfold ProgramsWT
  exact List.decidableBAll _ ps

instance (epg : List (String × List ProgramEntry)) : Decidable (EpgWT epg) := by
  unfold EpgWT
  exact List.decidableBAll _ epg

/-- The `end` instant of a well-typed entry (0 when absent; only used
on well-typed entries). -/
def endOfEntry (p : ProgramEntry) : Int :=
  ((p.live.getD ⟨none, none, none⟩).stop.getD 0)

/-- The pure filter predicate of line 214: keep entries whose `end` is
at or after the query instant. -/
def keepPred (t : Int) (p : ProgramEntry) : Bool := endOfEntry p ≥ t

/-- The pure value of one guide row, used to characterize `buildRow` on
well-typed input: the row built from the filtered program list. -/
def rowFromFiltered (fmt : Int → String) (lcn : Option Int) (name : Option String)
    (filtered : List ProgramEntry) : GuideRow :=
  let cur := liveAt filtered 0
  let nxt := liveAt filtered 1
  { lcn := lcn
    channel := name
    current_program := cur.bind (·.title)
    current_program_start_time := cur.bind (fun l => fmtTruthy fmt l.start)
    current_program_end_time := cur.bind (fun l => fmtTruthy fmt l.stop)
    next_program := nxt.bind (·.title)
    next_program_start_time := nxt.bind (fun l => fmtTruthy fmt l.start)
    next_program_end_time := nxt.bind (fun l => fmtTruthy fmt l.stop) }

/-- The pure per-channel outcome on well-typed input: `none` when the
channel has no bucket entry, else its row. -/
def pureRow (fmt : Int → String) (t : Int) (lcnMap : List (String × Option Int))
    (epg : List (String × List ProgramEntry)) (p : String × ChannelData) :
    Option GuideRow :=
  match dictGet epg p.1 with
  | none => none
  | some programs =>
      some (rowFromFiltered fmt ((dictGet lcnMap p.1).join) p.2.name
        (programs.filter (keepPred t)))

/-- The sort-order relation the guide output is claimed to satisfy:
rows with an lcn ascending, rows without an lcn after all of them. -/
def RowLe (a b : GuideRow) : Prop :=
  match a.lcn, b.lcn with
  | none, none => True
  | none, some _ => False
  | some _, none => True
  | some x, some y => x ≤ y

/-- Spec-side "first wins": the number of the first `channel_list`
entry matching the id (possibly itself absent), `none` if no entry
matches. -/
def firstNumberOf (cl : List LcnEntry) (cid : String) : Option Int :=
  (cl.find? (fun e => strOfOpt e.channel_id = cid)).bind (·.number)

/-- Spec-side "last wins": the number of the last `channel_list` entry
matching the id, `none` if no entry matches. -/
def lastNumberOf (cl : List LcnEntry) (cid : String) : Option Int :=
  (cl.reverse.find? (fun e => strOfOpt e.channel_id = cid)).bind (·.number)

/-! ## Concrete fixtures for witnesses and counterexamples -/

/-- The two-channel catalog of the spec's resolver example. -/
def planTF : ServicePlan :=
  ⟨[("1", ⟨some "TF1", some "1"⟩), ("2", ⟨some "TF2", some "2"⟩)], []⟩

/-- The duplicate `channel_list` of the spec's "first wins" example. -/
def dupLcnList : List LcnEntry := [⟨some "1", some 5⟩, ⟨some "1", some 9⟩]

/-- A service plan with one channel and the duplicate lcn list. -/
def planDup : ServicePlan := ⟨[("1", ⟨some "TF1", some "1"⟩)], dupLcnList⟩

/-- A single-channel service plan without any lcn entry. -/
def planOne : ServicePlan := ⟨[("1", ⟨some "TF1", some "1"⟩)], []⟩

/-- A raw search item in content/diffusion shape with the given first
diffusion instants. -/
def diffItem (s e : Option Int) : RawItem :=
  ⟨some "content",
   .content ⟨some "T", none, none, some "42", some "diffusion", [⟨some "1", s, e⟩]⟩⟩

/-- A guide bucket entry that ended at instant 50. -/
def oldProgram : ProgramEntry := ⟨some ⟨some "Old", some 1, some 50⟩⟩

/-- A three-channel plan whose lcn values force a reordering
(`2 ↦ 7`, `3 ↦ 2`, `1` without an lcn). -/
def planSort : ServicePlan :=
  ⟨[("1", ⟨some "A", none⟩), ("2", ⟨some "B", none⟩), ("3", ⟨some "C", none⟩)],
   [⟨some "2", some 7⟩, ⟨some "3", some 2⟩]⟩

/-- A fixed `datetime.now()` snapshot for the parser examples. -/
def now0 : PyDateTime := ⟨2024, 5, 15, 10, 20, 30, 123⟩

/-- A service plan assigning logical channel number 0 to channel "1". -/
def planZero : ServicePlan :=
  ⟨[("1", ⟨some "TF1", some "1"⟩)], [⟨some "1", some 0⟩]⟩

/-- A trivial timestamp formatter for closed examples. -/
def fmt0 : Int → String := fun _ => ""

end Oqee

/-! # Helper lemmas -/

namespace Oqee

theorem lev_nil_left (b : List Char) : lev [] b = b.length := by
  simp [lev]

theorem lev_nil_right (a : List Char) : lev a [] = a.length := by
  cases a with
  | nil => simp [lev]
  | cons x xs => simp [lev]

theorem lev_cons_cons (x y : Char) (xs ys : List Char) :
    lev (x :: xs) (y :: ys) =
      min (lev xs ys + (if x = y then 0 else 1))
        (min (lev xs (y :: ys) + 1) (lev (x :: xs) ys + 1)) := by
  simp [lev]

set_option maxHeartbeats 1600000 in
theorem lev_snoc (x y : Char) : ∀ (xs ys : List Char),
    lev (xs ++ [x]) (ys ++ [y]) =
      min (lev xs ys + (if x = y then 0 else 1))
        (min (lev xs (ys ++ [y]) + 1) (lev (xs ++ [x]) ys + 1)) := by
  intro xs
  induction xs with
  | nil =>
    intro ys
    induction ys with
    | nil =>
      rw [List.nil_append, List.nil_append, lev_cons_cons]
    | cons y' ys' ih =>
      simp only [List.nil_append, List.cons_append] at ih ⊢
      simp only [lev_cons_cons]
      rw [ih]
      simp only [lev_nil_left, List.length_append, List.length_cons, List.length_nil]
      generalize (if x = y then (0 : Nat) else 1) = c1
      generalize (if x = y' then (0 : Nat) else 1) = c2
      omega
  | cons x' xs' ihx =>
    intro ys
    induction ys with
    | nil =>
      simp only [List.nil_append, List.cons_append]
      simp only [lev_cons_cons]
      have h := ihx ([] : List Char)
      simp only [List.nil_append] at h
      rw [h]
      simp only [lev_nil_right, List.length_append, List.length_cons, List.length_nil]
      generalize (if x = y then (0 : Nat) else 1) = c1
      generalize (if x' = y then (0 : Nat) else 1) = c2
      omega
    | cons y' ys' ihy =>
      have h2 := ihx (y' :: ys')
      simp only [List.cons_append] at h2 ihy ⊢
      simp only [lev_cons_cons]
      rw [ihx ys', h2, ihy]
      generalize (if x = y then (0 : Nat) else 1) = c1
      generalize (if x' = y' then (0 : Nat) else 1) = c2
      generalize lev xs' ys' = p1
      generalize lev xs' (ys' ++ [y]) = p2
      generalize lev (xs' ++ [x]) ys' = p3
      generalize lev xs' (y' :: ys') = p4
      generalize lev xs' (y' :: (ys' ++ [y])) = p5
      generalize lev (xs' ++ [x]) (y' :: ys') = p6
      generalize lev (x' :: xs') ys' = p7
      generalize lev (x' :: xs') (ys' ++ [y]) = p8
      generalize lev (x' :: (xs' ++ [x])) ys' = p9
      clear ihx ihy h2
      apply le_antisymm
      · simp only [le_min_iff, min_le_iff]
        omega
      · simp only [le_min_iff, min_le_iff]
        omega


theorem lev_rev : ∀ (a b : List Char), lev a.reverse b.reverse = lev a b := by
  intro a
  induction a with
  | nil =>
    intro b
    rw [List.reverse_nil, lev_nil_left, lev_nil_left, List.length_reverse]
  | cons x xs ihx =>
    intro b
    induction b with
    | nil =>
      rw [List.reverse_nil, lev_nil_right, lev_nil_right, List.length_reverse]
    | cons y ys ihy =>
      rw [List.reverse_cons, List.reverse_cons, lev_snoc,
        show ys.reverse ++ [y] = (y :: ys).reverse from (List.reverse_cons y ys).symm,
        show xs.reverse ++ [x] = (x :: xs).reverse from (List.reverse_cons x xs).symm,
        ihx ys, ihx (y :: ys), ihy, lev_cons_cons]

theorem lev_symm : ∀ (a b : List Char), lev a b = lev b a := by
  intro a
  induction a with
  | nil =>
    intro b
    rw [lev_nil_left, lev_nil_right]
  | cons x xs ihx =>
    intro b
    induction b with
    | nil =>
      rw [lev_nil_left, lev_nil_right]
    | cons y ys ihy =>
      have hc : (if x = y then (0 : Nat) else 1) = (if y = x then 0 else 1) := by
        by_cases h : x = y
        · simp [h]
        · rw [if_neg h, if_neg (fun h2 => h h2.symm)]
      rw [lev_cons_cons, lev_cons_cons, ihx ys, ihx (y :: ys), ihy, hc]
      generalize lev ys xs = p1
      generalize lev (y :: ys) xs = p2
      generalize lev ys (x :: xs) = p3
      generalize (if y = x then (0 : Nat) else 1) = c1
      omega

theorem lev_self : ∀ (a : List Char), lev a a = 0 := by
  intro a
  induction a with
  | nil => rw [lev_nil_left, List.length_nil]
  | cons x xs ih =>
    rw [lev_cons_cons, ih]
    simp

theorem rowOf_cons (ra rb : List Char) (c2 : Char) (cs : List Char) :
    rowOf ra rb (c2 :: cs) = lev ra rb :: rowOf ra (c2 :: rb) cs := by
  simp [rowOf, rowAux]

theorem levRow_spec (c1 : Char) (ra : List Char) : ∀ (cs rb : List Char),
    levRow c1 (lev (c1 :: ra) rb) (rowOf ra rb cs) cs = rowAux (c1 :: ra) rb cs := by
  intro cs
  induction cs with
  | nil =>
    intro rb
    simp [rowOf, rowAux, levRow]
  | cons c2 cs' ih =>
    intro rb
    have hv : min (lev ra (c2 :: rb) + 1)
        (min (lev (c1 :: ra) rb + 1) (lev ra rb + (if c1 = c2 then 0 else 1))) =
        lev (c1 :: ra) (c2 :: rb) := by
      rw [lev_cons_cons]
      generalize lev ra rb = p1
      generalize lev ra (c2 :: rb) = p2
      generalize lev (c1 :: ra) rb = p3
      generalize (if c1 = c2 then (0 : Nat) else 1) = c
      omega
    have htail := ih (c2 :: rb)
    simp only [rowOf] at htail
    simp only [rowOf, rowAux, levRow]
    rw [hv, htail]


theorem levLoop_spec (s2 : List Char) : ∀ (rest ra : List Char),
    levLoop s2 ra.length (rowOf ra [] s2) rest = rowOf (rest.reverse ++ ra) [] s2 := by
  intro rest
  induction rest with
  | nil =>
    intro ra
    simp [levLoop]
  | cons c1 rest' ih =>
    intro ra
    have hrow : (ra.length + 1) :: levRow c1 (ra.length + 1) (rowOf ra [] s2) s2 =
        rowOf (c1 :: ra) [] s2 := by
      have hlen : ra.length + 1 = lev (c1 :: ra) [] := by
        rw [lev_nil_right, List.length_cons]
      rw [hlen, levRow_spec c1 ra s2 []]
      rfl
    rw [levLoop, hrow]
    have := ih (c1 :: ra)
    rw [List.length_cons] at this
    rw [this, List.reverse_cons, List.append_assoc]
    rfl

theorem rowOf_nil_eq_range : ∀ (cs rb : List Char),
    rowOf [] rb cs = List.range' rb.length (cs.length + 1) := by
  intro cs
  induction cs with
  | nil =>
    intro rb
    simp [rowOf, rowAux, lev_nil_left, List.range']
  | cons c2 cs' ih =>
    intro rb
    rw [rowOf_cons, ih (c2 :: rb), lev_nil_left, List.length_cons]
    simp [List.range']

theorem lastD_rowOf (ra : List Char) : ∀ (cs rb : List Char),
    lastD (rowOf ra rb cs) = lev ra (cs.reverse ++ rb) := by
  intro cs
  induction cs with
  | nil =>
    intro rb
    simp [rowOf, rowAux, lastD]
  | cons c2 cs' ih =>
    intro rb
    rw [rowOf_cons]
    have h1 : lastD (lev ra rb :: rowOf ra (c2 :: rb) cs') = lastD (rowOf ra (c2 :: rb) cs') := by
      simp only [rowOf]
      rfl
    rw [h1, ih (c2 :: rb), List.reverse_cons, List.append_assoc]
    rfl

theorem levBody_eq (s1 s2 : List Char) : levBody s1 s2 = lev s1.reverse s2.reverse := by
  unfold levBody
  by_cases h : s2.length = 0
  · rw [if_pos h, List.length_eq_zero.mp h]
    rw [List.reverse_nil, lev_nil_right, List.length_reverse]
  · rw [if_neg h]
    have h0 : List.range (s2.length + 1) = rowOf [] [] s2 := by
      rw [List.range_eq_range', rowOf_nil_eq_range s2 []]
      rfl
    have h1 : (0 : Nat) = ([] : List Char).length := rfl
    rw [h0, h1, levLoop_spec s2 s1 [], List.append_nil, lastD_rowOf]
    rw [List.append_nil]

theorem levenshtein_distance_eq_lev (a b : List Char) :
    levenshtein_distance a b = lev a b := by
  unfold levenshtein_distance
  by_cases h : a.length < b.length
  · rw [if_pos h, levBody_eq, lev_rev, lev_symm]
  · rw [if_neg h, levBody_eq, lev_rev]

end Oqee

namespace Oqee

theorem dictGet_nil (k : String) : dictGet ([] : List (String × α)) k = none := rfl

theorem dictGet_cons (x : String × α) (xs : List (String × α)) (k : String) :
    dictGet (x :: xs) k = if x.1 = k then some x.2 else dictGet xs k := by
  unfold dictGet
  rw [List.find?_cons]
  by_cases h : x.1 = k
  · simp [h]
  · simp [h]

theorem dictGet_map_ne (k k' : String) (v : α) (h : k' ≠ k) :
    ∀ l : List (String × α),
      dictGet (l.map (fun p => if p.1 = k then (k, v) else p)) k' = dictGet l k' := by
  intro l
  induction l with
  | nil => rfl
  | cons a rest ih =>
    rw [List.map_cons, dictGet_cons, dictGet_cons]
    by_cases ha : a.1 = k
    · rw [if_pos ha]
      have : ¬((k, v).1 = k') := fun hh => h (hh.symm)
      rw [if_neg this, if_neg (fun hh : a.1 = k' => h (ha ▸ hh).symm), ih]
    · rw [if_neg ha, ih]

theorem dictGet_map_overwrite (k k' : String) (v : α) :
    ∀ l : List (String × α), l.any (fun p => p.1 = k) = true →
      dictGet (l.map (fun p => if p.1 = k then (k, v) else p)) k' =
        if k' = k then some v else dictGet l k' := by
  intro l
  induction l with
  | nil => intro h; simp at h
  | cons a rest ih =>
    intro h
    rw [List.map_cons, dictGet_cons, dictGet_cons]
    by_cases ha : a.1 = k
    · rw [if_pos ha]
      by_cases hk : k' = k
      · simp [hk]
      · have hvk : ¬((k, v).1 = k') := fun hh => hk (hh.symm)
        have hak : ¬(a.1 = k') := by
          intro hh
          rw [ha] at hh
          exact hk hh.symm
        rw [if_neg hvk, dictGet_map_ne k k' v hk, if_neg hk, if_neg hak]
    · rw [if_neg ha]
      have hrest : rest.any (fun p => p.1 = k) = true := by
        simp [List.any_cons, ha] at h
        simpa using h
      by_cases hak : a.1 = k'
      · have hk : ¬(k' = k) := fun hh => ha (hak.symm ▸ hh ▸ rfl)
        rw [if_pos hak, if_neg hk, if_pos hak]
      · rw [if_neg hak, ih hrest]
        by_cases hk : k' = k
        · rw [if_pos hk, if_pos hk]
        · rw [if_neg hk, if_neg hk, if_neg hak]

theorem dictGet_append_fresh (k k' : String) (v : α) :
    ∀ l : List (String × α), (∀ p ∈ l, p.1 ≠ k) →
      dictGet (l ++ [(k, v)]) k' = if k' = k then some v else dictGet l k' := by
  intro l
  induction l with
  | nil =>
    intro _
    rw [List.nil_append, dictGet_cons, dictGet_nil]
    by_cases h : k' = k
    · rw [if_pos h.symm, if_pos h]
    · rw [if_neg (fun hh : (k, v).1 = k' => h hh.symm), if_neg h]
  | cons a rest ih =>
    intro hfresh
    have hak : a.1 ≠ k := hfresh a (List.mem_cons_self a rest)
    have hrest : ∀ p ∈ rest, p.1 ≠ k := fun p hp => hfresh p (List.mem_cons_of_mem a hp)
    rw [List.cons_append, dictGet_cons, dictGet_cons, ih hrest]
    by_cases hk : k' = k
    · have : ¬(a.1 = k') := fun hh => hak (hk ▸ hh)
      rw [if_neg this, if_pos hk, if_pos hk]
    · by_cases hck : a.1 = k'
      · rw [if_pos hck, if_neg hk, if_pos hck]
      · rw [if_neg hck, if_neg hk, if_neg hk, if_neg hck]


theorem dictGet_insert (l : List (String × α)) (k k' : String) (v : α) :
    dictGet (dictInsert l k v) k' = if k' = k then some v else dictGet l k' := by
  unfold dictInsert
  by_cases h : l.any (fun p => p.1 = k) = true
  · rw [if_pos h, dictGet_map_overwrite k k' v l h]
  · rw [if_neg h]
    have hfresh : ∀ p ∈ l, p.1 ≠ k := by
      intro p hp hpk
      exact h (List.any_eq_true.mpr ⟨p, hp, by simp [hpk]⟩)
    exact dictGet_append_fresh k k' v l hfresh

theorem foldl_insert_get (cid : String) : ∀ (cl : List LcnEntry) (d : List (String × Option Int)),
    dictGet (cl.foldl (fun d e => dictInsert d (strOfOpt e.channel_id) e.number) d) cid =
      match cl.reverse.find? (fun e => strOfOpt e.channel_id = cid) with
      | some e => some e.number
      | none => dictGet d cid := by
  intro cl
  induction cl with
  | nil =>
    intro d
    simp
  | cons e rest ih =>
    intro d
    rw [List.foldl_cons, ih, List.reverse_cons, List.find?_append]
    cases hr : rest.reverse.find? (fun e => strOfOpt e.channel_id = cid) with
    | some e' => simp [hr]
    | none =>
      simp only [hr]
      rw [dictGet_insert]
      by_cases hp : strOfOpt e.channel_id = cid
      · simp [hp]
      · have hcid : ¬(cid = strOfOpt e.channel_id) := fun hh => hp hh.symm
        rw [if_neg hcid]
        simp [List.find?_cons, hp]

theorem buildLcnMapping_get (cl : List LcnEntry) (cid : String) :
    (dictGet (buildLcnMapping cl) cid).join = lastNumberOf cl cid := by
  unfold buildLcnMapping lastNumberOf
  rw [foldl_insert_get cid cl []]
  cases hr : cl.reverse.find? (fun e => strOfOpt e.channel_id = cid) with
  | some e => simp
  | none => simp [dictGet_nil]

theorem get_channel_details_lcn_eq (cl : List LcnEntry) (cid : String) :
    get_channel_details_lcn cl cid = firstNumberOf cl cid := by
  unfold firstNumberOf
  induction cl with
  | nil => rfl
  | cons e rest ih =>
    rw [List.find?_cons]
    by_cases hp : strOfOpt e.channel_id = cid
    · unfold get_channel_details_lcn
      rw [if_pos hp]
      simp [hp]
    · unfold get_channel_details_lcn
      rw [if_neg hp]
      simp only [hp, decide_False]
      exact ih


theorem entryWT_elim {p : ProgramEntry} (h : EntryWT p) :
    ∃ l e, p.live = some l ∧ l.stop = some e := by
  unfold EntryWT at h
  cases hl : p.live with
  | none => rw [hl] at h; simp at h
  | some l =>
    cases he : l.stop with
    | none => rw [hl] at h; simp [he] at h
    | some e => exact ⟨l, e, rfl, he⟩

theorem endOfEntry_eq {p : ProgramEntry} {l : LiveInfo} {e : Int}
    (hl : p.live = some l) (he : l.stop = some e) : endOfEntry p = e := by
  unfold endOfEntry
  rw [hl]
  simp [he]

theorem filterPrograms_wt (t : Int) : ∀ (ps : List ProgramEntry), ProgramsWT ps →
    filterPrograms t ps = .ok (ps.filter (keepPred t)) := by
  intro ps
  induction ps with
  | nil => intro _; rfl
  | cons p rest ih =>
    intro h
    obtain ⟨l, e, hl, he⟩ := entryWT_elim (h p (List.mem_cons_self p rest))
    have hrest : ProgramsWT rest := fun q hq => h q (List.mem_cons_of_mem p hq)
    unfold filterPrograms
    simp only [hl, he, ih hrest, Except.map]
    rw [List.filter_cons]
    have hk : keepPred t p = decide (e ≥ t) := by
      unfold keepPred
      rw [endOfEntry_eq hl he]
    by_cases hc : e ≥ t
    · simp [hk, hc]
    · simp [hk, hc]

theorem find?_mem_of_dictGet {epg : List (String × β)} {cid : String} {ps : β}
    (h : dictGet epg cid = some ps) : ∃ pr ∈ epg, pr.1 = cid ∧ pr.2 = ps := by
  unfold dictGet at h
  cases hf : epg.find? (fun p => p.1 = cid) with
  | none => rw [hf] at h; simp at h
  | some pr =>
    rw [hf] at h
    simp at h
    refine ⟨pr, List.mem_of_find?_eq_some hf, ?_, h⟩
    have := List.find?_some hf
    simpa using this

theorem buildRow_none {epg : List (String × List ProgramEntry)} {cid : String}
    (fmt : Int → String) (t : Int) (lcnMap : List (String × Option Int)) (cd : ChannelData)
    (h : dictGet epg cid = none) : buildRow fmt t lcnMap epg cid cd = .ok none := by
  unfold buildRow
  rw [h]

theorem buildRow_some_wt {epg : List (String × List ProgramEntry)} {cid : String}
    {ps : List ProgramEntry} (fmt : Int → String) (t : Int)
    (lcnMap : List (String × Option Int)) (cd : ChannelData)
    (h : dictGet epg cid = some ps) (hwt : ProgramsWT ps) :
    buildRow fmt t lcnMap epg cid cd =
      .ok (some (rowFromFiltered fmt ((dictGet lcnMap cid).join) cd.name
        (ps.filter (keepPred t)))) := by
  unfold buildRow
  simp only [h, filterPrograms_wt t ps hwt, Except.map]
  rfl

theorem pureRow_eq_none {epg : List (String × List ProgramEntry)}
    (fmt : Int → String) (t : Int) (lcnMap : List (String × Option Int))
    (p : String × ChannelData) (h : dictGet epg p.1 = none) :
    pureRow fmt t lcnMap epg p = none := by
  unfold pureRow
  rw [h]

theorem pureRow_eq_some {epg : List (String × List ProgramEntry)}
    {ps : List ProgramEntry} (fmt : Int → String) (t : Int)
    (lcnMap : List (String × Option Int)) (p : String × ChannelData)
    (h : dictGet epg p.1 = some ps) :
    pureRow fmt t lcnMap epg p =
      some (rowFromFiltered fmt ((dictGet lcnMap p.1).join) p.2.name
        (ps.filter (keepPred t))) := by
  unfold pureRow
  rw [h]

theorem epgWT_lookup {epg : List (String × List ProgramEntry)} {cid : String}
    {ps : List ProgramEntry} (h : EpgWT epg) (hg : dictGet epg cid = some ps) :
    ProgramsWT ps := by
  obtain ⟨pr, hmem, _, h2⟩ := find?_mem_of_dictGet hg
  exact h2 ▸ h pr hmem

theorem collectRows_wt (fmt : Int → String) (t : Int) (lcnMap : List (String × Option Int))
    (epg : List (String × List ProgramEntry)) (h : EpgWT epg) :
    ∀ channels : List (String × ChannelData),
      collectRows fmt t lcnMap epg channels =
        .ok (channels.filterMap (pureRow fmt t lcnMap epg)) := by
  intro channels
  induction channels with
  | nil => rfl
  | cons p rest ih =>
    obtain ⟨cid, cd⟩ := p
    unfold collectRows
    cases hd : dictGet epg cid with
    | none =>
      rw [buildRow_none fmt t lcnMap cd hd]
      rw [List.filterMap_cons, pureRow_eq_none fmt t lcnMap (cid, cd) hd, ih]
      rfl
    | some ps =>
      rw [buildRow_some_wt fmt t lcnMap cd hd (epgWT_lookup h hd)]
      rw [List.filterMap_cons, pureRow_eq_some fmt t lcnMap (cid, cd) hd, ih]
      rfl

theorem get_epg_wt (fmt : Int → String) (t : Int) (sp : ServicePlan)
    (epg : List (String × List ProgramEntry)) (h : EpgWT epg) :
    get_epg_by_datetime fmt t (some sp) epg =
      .ok (some ((sp.channels.filterMap
        (pureRow fmt t (buildLcnMapping sp.channel_list) epg)).mergeSort rowKeyLe)) := by
  unfold get_epg_by_datetime
  simp only [collectRows_wt fmt t (buildLcnMapping sp.channel_list) epg h sp.channels]
  rfl

theorem rowKeyLe_trans : ∀ a b c : GuideRow,
    rowKeyLe a b = true → rowKeyLe b c = true → rowKeyLe a c = true := by
  intro a b c
  unfold rowKeyLe
  cases a.lcn <;> cases b.lcn <;> cases c.lcn <;> simp <;> omega

theorem rowKeyLe_total : ∀ a b : GuideRow, (rowKeyLe a b || rowKeyLe b a) = true := by
  intro a b
  unfold rowKeyLe
  cases a.lcn <;> cases b.lcn <;> simp <;> omega

end Oqee

namespace Oqee

theorem play_channel_loop_nil (q : String) (best : Option ChannelData) (m : Option Nat) :
    play_channel_loop q [] best m = best := rfl

theorem play_channel_loop_start (q : String) (a : String × ChannelData)
    (rest : List (String × ChannelData)) :
    play_channel_loop q (a :: rest) none none =
      play_channel_loop q rest (some a.2) (some (dOf q a.2)) := by
  obtain ⟨k, cd⟩ := a
  simp [play_channel_loop]

theorem play_channel_loop_go (q : String) : ∀ (l : List (String × ChannelData)) (bcd : ChannelData),
    ∃ cd, play_channel_loop q l (some bcd) (some (dOf q bcd)) = some cd ∧
      dOf q cd ≤ dOf q bcd ∧
      (∀ p ∈ l, dOf q cd ≤ dOf q p.2) ∧
      (cd = bcd ∨ ∃ (i : Nat) (pi : String × ChannelData),
        l[i]? = some pi ∧ pi.2 = cd ∧ dOf q cd < dOf q bcd ∧
        (∀ (j : Nat) (pj : String × ChannelData),
          j < i → l[j]? = some pj → dOf q cd < dOf q pj.2)) := by
  intro l
  induction l with
  | nil =>
    intro bcd
    exact ⟨bcd, rfl, Nat.le_refl _, by simp, Or.inl rfl⟩
  | cons a rest ih =>
    intro bcd
    obtain ⟨k, acd⟩ := a
    by_cases hlt : dOf q acd < dOf q bcd
    · obtain ⟨cd, hres, hle, hall, hdisj⟩ := ih acd
      refine ⟨cd, ?_, ?_, ?_, ?_⟩
      · simp only [play_channel_loop]
        rw [if_pos (by simpa using hlt)]
        exact hres
      · exact Nat.le_of_lt (Nat.lt_of_le_of_lt hle hlt)
      · intro p hp
        rcases List.mem_cons.mp hp with hpa | hpr
        · rw [hpa]
          exact hle
        · exact hall p hpr
      · right
        rcases hdisj with hcd | ⟨i, pi, hget, hpi, hlt2, hearlier⟩
        · refine ⟨0, (k, acd), by simp, by simp [hcd], by rw [hcd]; exact hlt, ?_⟩
          intro j pj hj _
          omega
        · refine ⟨i + 1, pi, by simpa using hget, hpi, Nat.lt_trans hlt2 hlt, ?_⟩
          intro j pj hj hget2
          cases j with
          | zero =>
            simp at hget2
            rw [← hget2]
            exact hlt2
          | succ j' =>
            exact hearlier j' pj (by omega) (by simpa using hget2)
    · obtain ⟨cd, hres, hle, hall, hdisj⟩ := ih bcd
      have hge : dOf q bcd ≤ dOf q acd := Nat.le_of_not_lt hlt
      refine ⟨cd, ?_, hle, ?_, ?_⟩
      · simp only [play_channel_loop]
        rw [if_neg (by simpa using hlt)]
        exact hres
      · intro p hp
        rcases List.mem_cons.mp hp with hpa | hpr
        · rw [hpa]
          exact Nat.le_trans hle hge
        · exact hall p hpr
      · rcases hdisj with hcd | ⟨i, pi, hget, hpi, hlt2, hearlier⟩
        · exact Or.inl hcd
        · right
          refine ⟨i + 1, pi, by simpa using hget, hpi, hlt2, ?_⟩
          intro j pj hj hget2
          cases j with
          | zero =>
            simp at hget2
            rw [← hget2]
            exact Nat.lt_of_lt_of_le hlt2 hge
          | succ j' =>
            exact hearlier j' pj (by omega) (by simpa using hget2)

end Oqee

namespace Oqee

/-- C8: `levenshtein_distance` equals the classic Levenshtein distance,
hence is symmetric, zero on equal strings, degenerate on the empty
string, and maps ("kitten","sitting") to 3. -/
theorem claim_C8 :
    (∀ a b : List Char, levenshtein_distance a b = lev a b) ∧
    (∀ a b : List Char, levenshtein_distance a b = levenshtein_distance b a) ∧
    (∀ a : List Char, levenshtein_distance a a = 0) ∧
    (∀ a : List Char, levenshtein_distance a [] = a.length) ∧
    levenshtein_distance "kitten".data "sitting".data = 3 := by
  refine ⟨levenshtein_distance_eq_lev, ?_, ?_, ?_, by decide⟩
  · intro a b
    rw [levenshtein_distance_eq_lev, levenshtein_distance_eq_lev, lev_symm]
  · intro a
    rw [levenshtein_distance_eq_lev, lev_self]
  · intro a
    rw [levenshtein_distance_eq_lev, lev_nil_right]

/-- C3 counterexample: with the duplicate channel_list
`[{channel_id:"1",number:5},{channel_id:"1",number:9}]`,
`_get_channel_details` resolves 5 (first wins) but the guide
aggregator's `lcn_mapping` resolves 9 (last wins), and a full guide
aggregation exhibits the 9 — the claim's "first wins in every place" is
false. -/
theorem claim_C3_counterexample :
    get_channel_details_lcn dupLcnList "1" = some 5 ∧
    (dictGet (buildLcnMapping dupLcnList) "1").join = some 9 ∧
    get_epg_by_datetime fmt0 0 (some planDup) [("1", [])] =
      .ok (some [{ lcn := some 9
                   channel := some "TF1"
                   current_program := none
                   current_program_start_time := none
                   current_program_end_time := none
                   next_program := none
                   next_program_start_time := none
                   next_program_end_time := none }]) ∧
    (some 9 : Option Int) ≠ some 5 := by
  refine ⟨by decide, by decide, ?_, by decide⟩
  rw [get_epg_wt fmt0 0 planDup [("1", [])] (by decide)]
  have h1 : planDup.channels.filterMap
      (pureRow fmt0 0 (buildLcnMapping planDup.channel_list) [("1", [])]) =
      [{ lcn := some 9
         channel := some "TF1"
         current_program := none
         current_program_start_time := none
         current_program_end_time := none
         next_program := none
         next_program_start_time := none
         next_program_end_time := none }] := by decide
  rw [h1, List.mergeSort_singleton]

/-- C3 amended: the channel-detail lookup records the first matching
number ("first wins"), but the guide aggregator's `lcn_mapping` is
built by dict assignment, so there the last matching entry wins. -/
theorem claim_C3_amended :
    (∀ (cl : List LcnEntry) (cid : String),
      get_channel_details_lcn cl cid = firstNumberOf cl cid) ∧
    (∀ (cl : List LcnEntry) (cid : String),
      (dictGet (buildLcnMapping cl) cid).join = lastNumberOf cl cid) ∧
    get_channel_details_lcn dupLcnList "1" = some 5 := by
  exact ⟨get_channel_details_lcn_eq, buildLcnMapping_get, by decide⟩

theorem rowKeyLe_imp_RowLe (a b : GuideRow) (h : rowKeyLe a b = true) : RowLe a b := by
  unfold rowKeyLe at h
  unfold RowLe
  rcases ha : a.lcn with _ | x <;> rcases hb : b.lcn with _ | y <;> simp_all

/-- C7: every successfully produced guide listing is sorted: rows with
an lcn come first in ascending lcn order, rows without an lcn all come
after them. -/
theorem claim_C7 (fmt : Int → String) (t : Int) (plan : Option ServicePlan)
    (epg : List (String × List ProgramEntry)) (rows : List GuideRow)
    (h : get_epg_by_datetime fmt t plan epg = .ok (some rows)) :
    rows.Pairwise RowLe := by
  cases plan with
  | none =>
    unfold get_epg_by_datetime at h
    simp at h
  | some sp =>
    simp only [get_epg_by_datetime] at h
    cases hcr : collectRows fmt t (buildLcnMapping sp.channel_list) epg sp.channels with
    | error msg => rw [hcr] at h; simp [Bind.bind, Except.bind] at h
    | ok rs =>
      rw [hcr] at h
      simp only [Bind.bind, Except.bind, Except.ok.injEq, Option.some.injEq] at h
      rw [← h]
      exact (List.sorted_mergeSort rowKeyLe_trans rowKeyLe_total rs).imp
        (fun hab => rowKeyLe_imp_RowLe _ _ hab)

/-- Witness for C7 at a concrete single-channel aggregation. -/
theorem claim_C7_witness :
    ([{ lcn := none
        channel := some "TF1"
        current_program := none
        current_program_start_time := none
        current_program_end_time := none
        next_program := none
        next_program_start_time := none
        next_program_end_time := none }] : List GuideRow).Pairwise RowLe := by
  apply claim_C7 fmt0 0 (some planOne) [("1", [])]
  rw [get_epg_wt fmt0 0 planOne [("1", [])] (by decide)]
  have h1 : planOne.channels.filterMap
      (pureRow fmt0 0 (buildLcnMapping planOne.channel_list) [("1", [])]) =
      [{ lcn := none
         channel := some "TF1"
         current_program := none
         current_program_start_time := none
         current_program_end_time := none
         next_program := none
         next_program_start_time := none
         next_program_end_time := none }] := by decide
  rw [h1, List.mergeSort_singleton]

end Oqee

namespace Oqee

theorem filterMap_pureRow_length (fmt : Int → String) (t : Int)
    (lcnMap : List (String × Option Int)) (epg : List (String × List ProgramEntry)) :
    ∀ channels : List (String × ChannelData),
      (channels.filterMap (pureRow fmt t lcnMap epg)).length =
        (channels.filter (fun p => (dictGet epg p.1).isSome)).length := by
  intro channels
  induction channels with
  | nil => rfl
  | cons p rest ih =>
    rw [List.filterMap_cons, List.filter_cons]
    cases hd : dictGet epg p.1 with
    | none =>
      rw [pureRow_eq_none fmt t lcnMap p hd]
      simp [hd, ih]
    | some ps =>
      rw [pureRow_eq_some fmt t lcnMap p hd]
      simp [hd, ih]

/-- C1 counterexample: a service plan with one channel but an empty
guide bucket produces an empty listing — the channel's row is omitted,
not emitted with absent program fields. -/
theorem claim_C1_counterexample :
    planOne.channels.length = 1 ∧
    get_epg_by_datetime fmt0 0 (some planOne) [] = .ok (some []) := by
  constructor
  · decide
  · rw [get_epg_wt fmt0 0 planOne [] (by decide)]
    have h1 : planOne.channels.filterMap
        (pureRow fmt0 0 (buildLcnMapping planOne.channel_list) []) = [] := by decide
    rw [h1, List.mergeSort_nil]

/-- C1 amended: a channel produces exactly one row iff it has a guide
bucket entry (channels without one are omitted); a channel whose
filtered program list is empty still yields a row with all program
fields absent. -/
theorem claim_C1_amended (fmt : Int → String) (t : Int) (sp : ServicePlan)
    (epg : List (String × List ProgramEntry)) (h : EpgWT epg) :
    ∃ rows, get_epg_by_datetime fmt t (some sp) epg = .ok (some rows) ∧
      rows.length = (sp.channels.filter (fun p => (dictGet epg p.1).isSome)).length ∧
      ∀ (cid : String) (cd : ChannelData) (ps : List ProgramEntry),
        (cid, cd) ∈ sp.channels → dictGet epg cid = some ps →
        ps.filter (keepPred t) = [] →
        ({ lcn := (dictGet (buildLcnMapping sp.channel_list) cid).join
           channel := cd.name
           current_program := none
           current_program_start_time := none
           current_program_end_time := none
           next_program := none
           next_program_start_time := none
           next_program_end_time := none } : GuideRow) ∈ rows := by
  refine ⟨_, get_epg_wt fmt t sp epg h, ?_, ?_⟩
  · rw [List.length_mergeSort, filterMap_pureRow_length]
  · intro cid cd ps hmem hget hempty
    rw [List.mem_mergeSort]
    apply List.mem_filterMap.mpr
    refine ⟨(cid, cd), hmem, ?_⟩
    rw [pureRow_eq_some fmt t (buildLcnMapping sp.channel_list) (cid, cd) hget, hempty]
    rfl

/-- Witness for the amended C1: one channel whose only program already
ended (instant 100, program end 50) still yields its row. -/
theorem claim_C1_amended_witness :
    ∃ rows, get_epg_by_datetime fmt0 100 (some planOne) [("1", [oldProgram])] =
        .ok (some rows) ∧
      rows.length = (planOne.channels.filter
        (fun p => (dictGet [("1", [oldProgram])] p.1).isSome)).length ∧
      ∀ (cid : String) (cd : ChannelData) (ps : List ProgramEntry),
        (cid, cd) ∈ planOne.channels → dictGet [("1", [oldProgram])] cid = some ps →
        ps.filter (keepPred 100) = [] →
        ({ lcn := (dictGet (buildLcnMapping planOne.channel_list) cid).join
           channel := cd.name
           current_program := none
           current_program_start_time := none
           current_program_end_time := none
           next_program := none
           next_program_start_time := none
           next_program_end_time := none } : GuideRow) ∈ rows :=
  claim_C1_amended fmt0 100 planOne [("1", [oldProgram])] (by decide)

/-- C6: on a well-typed program list the aggregator's filter keeps
exactly the entries whose `end` is at or after the query instant,
preserving order (it equals `List.filter`), and the produced row takes
the first filtered entry as current program and the second as next,
each field absent when the entry (or its data) is missing. -/
theorem claim_C6 (t : Int) (ps : List ProgramEntry) (h : ProgramsWT ps) :
    filterPrograms t ps = .ok (ps.filter (keepPred t)) ∧
    ∀ (fmt : Int → String) (lcnMap : List (String × Option Int))
      (epg : List (String × List ProgramEntry)) (cid : String) (cd : ChannelData),
      dictGet epg cid = some ps →
      ∃ row, buildRow fmt t lcnMap epg cid cd = .ok (some row) ∧
        row.current_program =
          ((ps.filter (keepPred t))[0]?).bind (fun p => p.live.bind (·.title)) ∧
        row.next_program =
          ((ps.filter (keepPred t))[1]?).bind (fun p => p.live.bind (·.title)) ∧
        row.current_program_start_time =
          ((ps.filter (keepPred t))[0]?).bind
            (fun p => p.live.bind (fun l => fmtTruthy fmt l.start)) ∧
        row.current_program_end_time =
          ((ps.filter (keepPred t))[0]?).bind
            (fun p => p.live.bind (fun l => fmtTruthy fmt l.stop)) ∧
        row.next_program_start_time =
          ((ps.filter (keepPred t))[1]?).bind
            (fun p => p.live.bind (fun l => fmtTruthy fmt l.start)) ∧
        row.next_program_end_time =
          ((ps.filter (keepPred t))[1]?).bind
            (fun p => p.live.bind (fun l => fmtTruthy fmt l.stop)) := by
  refine ⟨filterPrograms_wt t ps h, ?_⟩
  intro fmt lcnMap epg cid cd hget
  refine ⟨_, buildRow_some_wt fmt t lcnMap cd hget h, ?_, ?_, ?_, ?_, ?_, ?_⟩ <;>
    simp [rowFromFiltered, liveAt, Option.bind_assoc, List.get?_eq_getElem?]

/-- Witness for C6: instant 100 against one finished and two running
programs keeps the two running ones in order. -/
theorem claim_C6_witness :
    filterPrograms 100 [oldProgram, ⟨some ⟨some "Now", some 90, some 110⟩⟩,
        ⟨some ⟨some "Next", some 110, some 130⟩⟩] =
      .ok [⟨some ⟨some "Now", some 90, some 110⟩⟩,
        ⟨some ⟨some "Next", some 110, some 130⟩⟩] :=
  (claim_C6 100 [oldProgram, ⟨some ⟨some "Now", some 90, some 110⟩⟩,
    ⟨some ⟨some "Next", some 110, some 130⟩⟩] (by decide)).1

/-- C9: the four computation components express absence through absent
values, not exceptions: the aggregator returns `ok` on any well-typed
bucket, normalization maps every raw item to exactly one record, a
missing catalog resolves to `(none, none)`, and an empty catalog makes
the resolver return `none`. -/
theorem claim_C9 :
    (∀ (fmt : Int → String) (t : Int) (sp : ServicePlan)
      (epg : List (String × List ProgramEntry)), EpgWT epg →
      ∃ rows, get_epg_by_datetime fmt t (some sp) epg = .ok (some rows)) ∧
    (∀ (fmtMD : Int → String) (plan : Option ServicePlan) (items : List RawItem),
      (search_content fmtMD plan items).length = items.length) ∧
    (∀ cid : Option String, get_channel_details none cid = (none, none)) ∧
    (∀ (q : String) (sp : ServicePlan), sp.channels = [] →
      play_channel q (some sp) = none) := by
  refine ⟨?_, ?_, ?_, ?_⟩
  · intro fmt t sp epg h
    exact ⟨_, get_epg_wt fmt t sp epg h⟩
  · intro fmtMD plan items
    simp [search_content]
  · intro cid
    rfl
  · intro q sp h
    simp [play_channel, h]

/-- Witness for C9 at concrete inputs. -/
theorem claim_C9_witness :
    (∃ rows, get_epg_by_datetime fmt0 0 (some planOne) [] = .ok (some rows)) ∧
    play_channel "x" (some ⟨[], []⟩) = none :=
  ⟨claim_C9.1 fmt0 0 planOne [] (by decide), claim_C9.2.2.2 "x" ⟨[], []⟩ rfl⟩

end Oqee

namespace Oqee

/-- C4: the channel resolver lowercases query and candidate names (in
`dOf`), scans every channel, and returns the playback URL of a channel
whose distance is the global minimum, with all strictly earlier
candidates at strictly greater distance (first wins on ties); it
returns `none` for a missing plan or an empty catalog; and it maps the
spec's examples "tf1"/"TF1"/"tff1" to channel "1". -/
theorem claim_C4 :
    (∀ q : String, play_channel q none = none) ∧
    (∀ (q : String) (cl : List LcnEntry), play_channel q (some ⟨[], cl⟩) = none) ∧
    (∀ (q : String) (sp : ServicePlan), sp.channels ≠ [] →
      ∃ (cd : ChannelData) (i : Nat) (pi : String × ChannelData),
        play_channel q (some sp) = some (playUrl cd) ∧
        sp.channels[i]? = some pi ∧ pi.2 = cd ∧
        (∀ p ∈ sp.channels, dOf q cd ≤ dOf q p.2) ∧
        (∀ (j : Nat) (pj : String × ChannelData), j < i →
          sp.channels[j]? = some pj → dOf q cd < dOf q pj.2)) ∧
    play_channel "tf1" (some planTF) = some "https://oqee.tv/home/channels/1/play" ∧
    play_channel "TF1" (some planTF) = some "https://oqee.tv/home/channels/1/play" ∧
    play_channel "tff1" (some planTF) = some "https://oqee.tv/home/channels/1/play" := by
  refine ⟨fun q => rfl, ?_, ?_, by decide, by decide, by decide⟩
  · intro q cl
    simp [play_channel]
  · intro q sp hne
    rcases hch : sp.channels with _ | ⟨a, rest⟩
    · exact absurd hch hne
    obtain ⟨cd, hres, hle, hall, hdisj⟩ := play_channel_loop_go q rest a.2
    have hrun : play_channel q (some sp) = some (playUrl cd) := by
      have hdef : play_channel q (some sp) =
          (if sp.channels.isEmpty then none
           else match play_channel_loop q sp.channels none none with
             | some cd => some (playUrl cd)
             | none => none) := rfl
      rw [hdef, hch]
      simp only [List.isEmpty_cons, Bool.false_eq_true, if_false,
        play_channel_loop_start, hres]
    rcases hdisj with hcd | ⟨i, pi, hget, hpi, hlt, hearlier⟩
    · refine ⟨cd, 0, a, hrun, by simp, hcd.symm ▸ rfl, ?_, ?_⟩
      · intro p hp
        rcases List.mem_cons.mp hp with hpa | hpr
        · rw [hpa, hcd]
        · exact hall p hpr
      · intro j pj hj _
        omega
    · refine ⟨cd, i + 1, pi, hrun, ?_, hpi, ?_, ?_⟩
      · simpa using hget
      · intro p hp
        rcases List.mem_cons.mp hp with hpa | hpr
        · rw [hpa]
          exact Nat.le_of_lt hlt
        · exact hall p hpr
      · intro j pj hj hget2
        cases j with
        | zero =>
          simp at hget2
          rw [← hget2]
          exact hlt
        | succ j' =>
          exact hearlier j' pj (by omega) (by simpa using hget2)

/-- Witness for C4's nonempty-catalog branch at the spec's example
catalog. -/
theorem claim_C4_witness :
    ∃ (cd : ChannelData) (i : Nat) (pi : String × ChannelData),
      play_channel "tf1" (some planTF) = some (playUrl cd) ∧
      planTF.channels[i]? = some pi ∧ pi.2 = cd ∧
      (∀ p ∈ planTF.channels, dOf "tf1" cd ≤ dOf "tf1" p.2) ∧
      (∀ (j : Nat) (pj : String × ChannelData), j < i →
        planTF.channels[j]? = some pj → dOf "tf1" cd < dOf "tf1" pj.2) :=
  claim_C4.2.2.1 "tf1" planTF (by decide)

end Oqee

namespace Oqee

/-- C5: the time-spec parser returns now for an absent input, converts
an integer input as an epoch, tries the HH:MM pattern first and the
MM/DD HH:MM pattern second on a string (first success wins), raises
InvalidTimeFormat when neither parses — including calendar-validation
failures such as hour 99 or day 31 of a 30-day month — and raises
InvalidTimeInput for any other input type. -/
theorem claim_C5 :
    (∀ (now : PyDateTime) (f : Int → PyDateTime),
      get_epg_parse now f .nothing = .ok now) ∧
    (∀ (now : PyDateTime) (f : Int → PyDateTime) (n : Int),
      get_epg_parse now f (.int n) = .ok (f n)) ∧
    (∀ (now : PyDateTime) (f : Int → PyDateTime) (s : String) (d : PyDateTime),
      tryHHMM now s = some d → get_epg_parse now f (.str s) = .ok d) ∧
    (∀ (now : PyDateTime) (f : Int → PyDateTime) (s : String) (d : PyDateTime),
      tryHHMM now s = none → tryMDHM now s = some d →
      get_epg_parse now f (.str s) = .ok d) ∧
    (∀ (now : PyDateTime) (f : Int → PyDateTime) (s : String),
      tryHHMM now s = none → tryMDHM now s = none →
      get_epg_parse now f (.str s) = .error .invalidTimeFormat) ∧
    (∀ (now : PyDateTime) (f : Int → PyDateTime),
      get_epg_parse now f .other = .error .invalidTimeInput) ∧
    get_epg_parse now0 (fun _ => now0) (.str "14:30") =
      .ok ⟨2024, 5, 15, 14, 30, 0, 0⟩ ∧
    get_epg_parse now0 (fun _ => now0) (.str "07/01 12:00") =
      .ok ⟨2024, 7, 1, 12, 0, 0, 0⟩ ∧
    get_epg_parse now0 (fun _ => now0) (.str "99:99") = .error .invalidTimeFormat ∧
    get_epg_parse now0 (fun _ => now0) (.str "not-a-time") = .error .invalidTimeFormat ∧
    get_epg_parse now0 (fun _ => now0) (.str "04/31 10:00") = .error .invalidTimeFormat := by
  refine ⟨fun now f => rfl, fun now f n => rfl, ?_, ?_, ?_, fun now f => rfl,
    rfl, rfl, rfl, rfl, rfl⟩
  · intro now f s d h
    simp only [get_epg_parse, h]
  · intro now f s d h1 h2
    simp only [get_epg_parse, h1, h2]
  · intro now f s h1 h2
    simp only [get_epg_parse, h1, h2]

/-- Witness for C5's pattern-order branches at concrete strings. -/
theorem claim_C5_witness :
    get_epg_parse now0 (fun _ => now0) (.str "08:05") =
      .ok ⟨2024, 5, 15, 8, 5, 0, 0⟩ ∧
    get_epg_parse now0 (fun _ => now0) (.str "02/29 06:00") =
      .ok ⟨2024, 2, 29, 6, 0, 0, 0⟩ ∧
    get_epg_parse now0 (fun _ => now0) (.str "13/01 06:00") = .error .invalidTimeFormat :=
  ⟨claim_C5.2.2.1 now0 (fun _ => now0) "08:05" ⟨2024, 5, 15, 8, 5, 0, 0⟩ rfl,
   claim_C5.2.2.2.1 now0 (fun _ => now0) "02/29 06:00" ⟨2024, 2, 29, 6, 0, 0, 0⟩ rfl rfl,
   claim_C5.2.2.2.2.1 now0 (fun _ => now0) "13/01 06:00" rfl rfl⟩

/-- C2 counterexample: a diffusion with `start = 0` and `end = 150` has
its duration omitted (Python truthiness of `start = 0`), not reported
as "2 minutes". -/
theorem claim_C2_counterexample :
    (normalize_search_item fmt0 none (diffItem (some 0) (some 150))).duration = none ∧
    (none : Option String) ≠ some "2 minutes" := by
  exact ⟨by decide, by decide⟩

/-- C2 amended: the duration is `(end - start) // 60` minutes only when
both instants are present and truthy (nonzero); a diffusion whose start
is 0 has its duration omitted even though both instants are present. -/
theorem claim_C2_amended :
    (∀ (fmtMD : Int → String) (plan : Option ServicePlan) (it : Option String)
      (c : ContentData) (d : Diffusion) (rest : List Diffusion) (s e : Int),
      c.display_as = some "diffusion" → c.diffusions = d :: rest →
      d.start = some s → d.stop = some e → s ≠ 0 → e ≠ 0 →
      (normalize_search_item fmtMD plan ⟨it, .content c⟩).duration =
        some (toString (Int.fdiv (e - s) 60) ++ " minutes")) ∧
    (∀ (fmtMD : Int → String) (plan : Option ServicePlan) (it : Option String)
      (c : ContentData) (d : Diffusion) (rest : List Diffusion),
      c.display_as = some "diffusion" → c.diffusions = d :: rest →
      d.start = some 0 →
      (normalize_search_item fmtMD plan ⟨it, .content c⟩).duration = none) := by
  constructor
  · intro fmtMD plan it c d rest s e hda hdiff hstart hstop hs he
    simp [normalize_search_item, hda, hdiff, hstart, hstop, hs, he]
  · intro fmtMD plan it c d rest hda hdiff hstart
    rcases hstop : d.stop with _ | e
    · simp [normalize_search_item, hda, hdiff, hstart, hstop, emptyResult]
    · by_cases he : e = 0
      · simp [normalize_search_item, hda, hdiff, hstart, hstop, he, emptyResult]
      · simp [normalize_search_item, hda, hdiff, hstart, hstop, he, emptyResult]

/-- Witness for the amended C2: start 30, end 150 gives "2 minutes";
start 0 gives no duration. -/
theorem claim_C2_amended_witness :
    (normalize_search_item fmt0 none (diffItem (some 30) (some 150))).duration =
      some (toString (Int.fdiv (150 - 30) 60) ++ " minutes") ∧
    (normalize_search_item fmt0 none (diffItem (some 0) (some 150))).duration = none :=
  ⟨claim_C2_amended.1 fmt0 none (some "content")
      ⟨some "T", none, none, some "42", some "diffusion", [⟨some "1", some 30, some 150⟩]⟩
      ⟨some "1", some 30, some 150⟩ [] 30 150 rfl rfl rfl rfl (by decide) (by decide),
   claim_C2_amended.2 fmt0 none (some "content")
      ⟨some "T", none, none, some "42", some "diffusion", [⟨some "1", some 0, some 150⟩]⟩
      ⟨some "1", some 0, some 150⟩ [] rfl rfl rfl⟩

/-- C10: in scheduled-diffusion normalization the channel_number,
broadcast_time and duration fields are included only when the resolved
value is truthy: a resolved channel number 0 or a start instant 0 is
omitted even though resolution succeeded. -/
theorem claim_C10 :
    ∀ (fmtMD : Int → String) (plan : Option ServicePlan) (it : Option String)
      (c : ContentData) (d : Diffusion) (rest : List Diffusion),
      c.display_as = some "diffusion" → c.diffusions = d :: rest →
      (((get_channel_details plan d.channel_id).2 = some 0 →
        (normalize_search_item fmtMD plan ⟨it, .content c⟩).channel_number = none) ∧
       (d.start = some 0 →
        (normalize_search_item fmtMD plan ⟨it, .content c⟩).broadcast_time = none ∧
        (normalize_search_item fmtMD plan ⟨it, .content c⟩).duration = none)) := by
  intro fmtMD plan it c d rest hda hdiff
  constructor
  · intro hnum
    rcases hstop : d.stop with _ | e
    · simp [normalize_search_item, hda, hdiff, hstop, hnum, truthyInt]
    · by_cases he : e = 0
      · simp [normalize_search_item, hda, hdiff, hstop, he, hnum, truthyInt]
      · simp [normalize_search_item, hda, hdiff, hstop, he, hnum, truthyInt]
  · intro hstart
    rcases hstop : d.stop with _ | e
    · simp [normalize_search_item, hda, hdiff, hstart, hstop, emptyResult, fmtTruthy]
    · by_cases he : e = 0
      · simp [normalize_search_item, hda, hdiff, hstart, hstop, he, emptyResult, fmtTruthy]
      · simp [normalize_search_item, hda, hdiff, hstart, hstop, he, emptyResult, fmtTruthy]

/-- Witness for C10: channel "1" has lcn 0 in the plan and the
diffusion starts at instant 0; both fields and the duration are
omitted. -/
theorem claim_C10_witness :
    ((get_channel_details (some planZero) (some "1")).2 = some 0 →
      (normalize_search_item fmt0 (some planZero)
        ⟨some "content", .content ⟨some "T", none, none, some "42", some "diffusion",
          [⟨some "1", some 0, some 150⟩]⟩⟩).channel_number = none) ∧
    ((⟨some "1", some 0, some 150⟩ : Diffusion).start = some 0 →
      (normalize_search_item fmt0 (some planZero)
        ⟨some "content", .content ⟨some "T", none, none, some "42", some "diffusion",
          [⟨some "1", some 0, some 150⟩]⟩⟩).broadcast_time = none ∧
      (normalize_search_item fmt0 (some planZero)
        ⟨some "content", .content ⟨some "T", none, none, some "42", some "diffusion",
          [⟨some "1", some 0, some 150⟩]⟩⟩).duration = none) :=
  claim_C10 fmt0 (some planZero) (some "content")
    ⟨some "T", none, none, some "42", some "diffusion", [⟨some "1", some 0, some 150⟩]⟩
    ⟨some "1", some 0, some 150⟩ [] rfl rfl

end Oqee
